import Mathlib

/-!
Verification development for the hubl-ls analysis core: a shallow embedding of
the scope-resolution engine (packages/server/src/symbols.ts), the documentation
formatter (packages/server/src/docFormatting.ts), the module-fields converter
(packages/server/src/moduleFields.ts), the import re-analysis decision of
packages/server/src/server.ts, and a spec-modelled fragment of the parser.
-/

namespace HublLs

/-- Kinds of AST nodes, mirroring the `type` tags of the ast classes of the
language package.  Only the kinds the scope engine inspects are distinguished;
all others are `otherKind`. -/
inductive NodeKind where
  | program
  | macroDecl
  | blockDecl
  | forDecl
  | setDecl
  | identifier
  | commentDecl
  | otherKind
deriving DecidableEq

/-- An AST node, viewed through the fields the scope engine reads: its kind,
its `getStart()` source offset (`none` models both an undefined result and the
absence of a `getStart` method, as on token nodes, which the source guards with
`inScopeOf?.getStart?.()`), the Block-only `scoped` marker, the Identifier-only
`value` string, a Macro's `name` child node, and the `parent` back-reference.
The parent chain is represented structurally: a node carries its whole chain of
ancestors. -/
inductive Node where
  | node (kind : NodeKind) (start : Option Nat) (scopedFlag : Option Bool)
      (value : Option String) (nameChild : Option Node) (parent : Option Node)

/-- The node's kind tag. -/
def Node.kind : Node → NodeKind
  | .node k _ _ _ _ _ => k

/-- The node's `getStart()` offset, when defined. -/
def Node.start : Node → Option Nat
  | .node _ s _ _ _ _ => s

/-- The Block `scoped` modifier (`none` = not explicitly marked "scoped"). -/
def Node.scopedFlag : Node → Option Bool
  | .node _ _ sc _ _ _ => sc

/-- The Identifier `value` string, when the node is an identifier. -/
def Node.value : Node → Option String
  | .node _ _ _ v _ _ => v

/-- A Macro node's `name` identifier child. -/
def Node.nameChild : Node → Option Node
  | .node _ _ _ _ nc _ => nc

/-- The `parent` back-reference. -/
def Node.parent : Node → Option Node
  | .node _ _ _ _ _ p => p

/-- Length of the parent chain; the measure for the scope-walk recursions. -/
def Node.depth : Node → Nat
  | .node _ _ _ _ _ none => 0
  | .node _ _ _ _ _ (some p) => p.depth + 1

/-- Modelled from the spec: the `definesScope` class property of the ast
classes of the language package (its source is not among the provided files).
Per spec §3, the scope boundaries are Program, Macro body, and Block (a Block
is always a `definesScope` node; its conditional "scoped" visibility is
handled separately inside `getScope`, which the provided symbols.ts shows). -/
def Node.definesScope (n : Node) : Bool :=
  n.kind = NodeKind.program ∨ n.kind = NodeKind.macroDecl ∨
    n.kind = NodeKind.blockDecl

/-- Structural equality of nodes; stands in for the JavaScript `===` identity
test of the source (node identity is stable for the lifetime of one parse). -/
def nodeEq : Node → Node → Bool
  | .node k1 s1 sc1 v1 nc1 p1, .node k2 s2 sc2 v2 nc2 p2 =>
    (k1 = k2 : Bool) && (s1 = s2 : Bool) && (sc1 = sc2 : Bool) &&
    (v1 = v2 : Bool) &&
    (match nc1, nc2 with
     | none, none => true
     | some a, some b => nodeEq a b
     | _, _ => false) &&
    (match p1, p2 with
     | none, none => true
     | some a, some b => nodeEq a b
     | _, _ => false)

theorem nodeEq_refl : ∀ a : Node, nodeEq a a = true
  | .node k s sc v nc p => by
    cases nc <;> cases p <;>
      simp [nodeEq] <;>
      first
        | exact nodeEq_refl _
        | exact ⟨nodeEq_refl _, nodeEq_refl _⟩

/-- The while-loop inside `getScope` (symbols.ts:748-752): from a node, walk
parents until a `definesScope` node is found. -/
def walkUp : Node → Option Node
  | .node k s sc v nc p =>
    if (Node.node k s sc v nc p).definesScope then
      some (Node.node k s sc v nc p)
    else
      match p with
      | none => none
      | some q => walkUp q

/-- `getScope` (symbols.ts:743-753): bails out (returns undefined) on a Block
without an explicit `scoped` marker unless `initial` is set, otherwise walks
up from the node's parent to the nearest scope-defining ancestor. -/
def getScope (nodeArg : Option Node) (initial : Bool) : Option Node :=
  match nodeArg with
  | none => none
  | some (.node k s sc v nc p) =>
    if initial = false ∧ k = NodeKind.blockDecl ∧ sc = none then
      none
    else
      match p with
      | none => none
      | some q => walkUp q

theorem walkUp_depth_le : ∀ n m : Node, walkUp n = some m → m.depth ≤ n.depth
  | .node k s sc v nc p, m => by
    intro h
    rw [walkUp.eq_def] at h
    dsimp only at h
    by_cases hd : (Node.node k s sc v nc p).definesScope = true
    · rw [if_pos hd] at h
      cases h
      exact Nat.le_refl _
    · rw [if_neg hd] at h
      match p, h with
      | none, h => exact absurd h (by simp)
      | some q, h =>
        have hle := walkUp_depth_le q m h
        have hdq : (Node.node k s sc v nc (some q)).depth = q.depth + 1 := rfl
        omega

theorem getScope_false_depth (c m : Node)
    (h : getScope (some c) false = some m) : m.depth < c.depth := by
  match c with
  | .node k s sc v nc p =>
    simp only [getScope] at h
    split at h
    · exact absurd h (by simp)
    · match p, h with
      | none, h => exact absurd h (by simp)
      | some q, h =>
        have hle := walkUp_depth_le q m h
        have hdq : (Node.node k s sc v nc (some q)).depth = q.depth + 1 := rfl
        omega

/-- The while-loop of `isInScope` (symbols.ts:774-779): climbs scopes from the
current scope, comparing each against the symbol's scope. -/
def scopeLoop (current : Node) (symbolScope : Option Node) : Bool :=
  if (match symbolScope with
      | some s => nodeEq s current
      | none => false) then
    true
  else
    match h : getScope (some current) false with
    | none => false
    | some next => scopeLoop next symbolScope
termination_by current.depth
decreasing_by exact getScope_false_depth current next h

/-- `isInScope` (symbols.ts:755-785): a definition node is in scope of a use
node when the use does not start strictly before the definition (when both
offsets exist) and the symbol's scope is reached by climbing scopes from the
use site's scope (falling back to the program). -/
def isInScope (node : Node) (inScopeOf : Option Node)
    (program : Option Node) : Bool :=
  if (match inScopeOf.bind Node.start, node.start with
      | some ss, some ns => decide (ss < ns)
      | _, _ => false) then
    false
  else
    match getScope inScopeOf true with
    | some c => scopeLoop c (getScope (some node) true)
    | none =>
      match program with
      | some c => scopeLoop c (getScope (some node) true)
      | none => false

/-- The list of scopes visited by the `isInScope` climb, starting at a scope
node: the node itself, then the scopes reached by repeated `getScope`. -/
def scopeChain (c : Node) : List Node :=
  c ::
    (match h : getScope (some c) false with
     | none => []
     | some next => scopeChain next)
termination_by c.depth
decreasing_by exact getScope_false_depth c next h

theorem scopeLoop_of_mem_chain_bounded : ∀ (n : Nat) (c : Node),
    c.depth ≤ n → ∀ s : Node, s ∈ scopeChain c → scopeLoop c (some s) = true := by
  intro n
  induction n with
  | zero =>
    intro c hc s h
    rw [scopeChain] at h
    rw [scopeLoop]
    rcases List.mem_cons.mp h with heq | htail
    · subst heq
      simp [nodeEq_refl]
    · exfalso
      revert htail
      split
      · intro htail
        simp at htail
      · rename_i next hnext
        intro _
        have := getScope_false_depth c next hnext
        omega
  | succ n ih =>
    intro c hc s h
    rw [scopeChain] at h
    rw [scopeLoop]
    rcases List.mem_cons.mp h with heq | htail
    · subst heq
      simp [nodeEq_refl]
    · by_cases hb : nodeEq s c = true
      · simp [hb]
      · simp only [hb, Bool.false_eq_true, if_false]
        revert htail
        split
        · intro htail
          simp at htail
        · rename_i next hnext
          intro htail
          have hd := getScope_false_depth c next hnext
          exact ih next (by omega) s htail

theorem scopeLoop_of_mem_chain (c : Node) (s : Node)
    (h : s ∈ scopeChain c) : scopeLoop c (some s) = true :=
  scopeLoop_of_mem_chain_bounded c.depth c (Nat.le_refl _) s h

/-- A text document, viewed through the two members the engine reads:
`uri` and `getText()`. -/
structure Doc where
  uri : String
  text : String

/-- The structural type descriptors: `TypeInfo` (`info`, with `name`,
`documentation`, `properties` and `elementType`), `TypeReference` (`ref`, with
`type` and `documentation` — the field is named `rtype` because `type` is
reserved in Lean), and a plain string entry (`strv`), which the source's
property records may also hold.  A property value may be absent (`none`
models an explicitly assigned `undefined`). -/
inductive TI where
  | info (name : String) (documentation : Option String)
      (properties : Option (List (String × Option TI))) (elementType : Option TI)
  | ref (rtype : String) (documentation : Option String)
  | strv (s : String)

/-- The `?.elementType` access: only a full TypeInfo carries an element type. -/
def TI.elementTypeOf : TI → Option TI
  | .info _ _ _ et => et
  | .ref _ _ => none
  | .strv _ => none

/-- The three symbol kinds of `SymbolInfo` (symbols.ts:34-48). -/
inductive SymKind where
  | macroS
  | blockS
  | variableS
deriving DecidableEq

/-- A `SymbolInfo` record.  `node` is optional because `findSymbolInDocument`
defensively skips entries with a missing node; `getType` is the stored closure
(`fun _ => none` stands in for the absent member on Macro/Block symbols). -/
structure SymbolInfo where
  kind : SymKind
  node : Option Node
  identifierNode : Option Node
  getType : Doc → Option TI

/-- Lookup in a string-keyed association list (a JavaScript `Map.get`). -/
def assocGet {α : Type} : List (String × α) → String → Option α
  | [], _ => none
  | (k', v) :: rest, k => if k' = k then some v else assocGet rest k

/-- Update in a string-keyed association list (a JavaScript `Map.set`:
overwrite in place if present, append otherwise). -/
def assocSet {α : Type} : List (String × α) → String → α → List (String × α)
  | [], k, v => [(k, v)]
  | (k', v') :: rest, k, v =>
    if k' = k then (k, v) :: rest else (k', v') :: assocSet rest k v

/-- A document's symbol table: name → ordered list of definitions
(insertion order = source order). -/
def SymTable : Type := List (String × List SymbolInfo)

/-- The ambient lookup inputs of `findSymbolInDocument` that live outside the
function: `SPECIAL_SYMBOLS` (constants.ts, not among the provided sources;
kept abstract as an ordered table of per-node-kind special bindings), the
global tables (`globals` stands for `getTypeInfoFromJS(globals[name])`,
`documentGlobals` likewise per URI, `extraGlobals` from configuration), the
filter/test signature tables, and the two structural position tests of
symbols.ts:842-874 (`testPos`, `filterPos`), which inspect child links that a
parent-chain embedding cannot carry; every theorem below holds for all
instantiations of these. -/
structure LookupEnv where
  specialSymbols : List (NodeKind × (String → Option TI))
  globals : String → Option TI
  extraGlobals : Option (String → Option TI)
  documentGlobals : String → Option (String → Option TI)
  testsFn : String → Option TI
  filtersFn : String → Option TI
  testPos : Node → Bool
  filterPos : Node → Bool

/-- Modelled from the spec: `parentOfType` of utilities.ts is not among the
provided sources.  Per the spec's "nearest enclosing scope-boundary kind"
(§4.4), it returns the nearest node of the requested kind found by following
parent links from the given node. -/
def parentOfType : Option Node → NodeKind → Option Node
  | none, _ => none
  | some (.node k1 s sc v nc p), k =>
    if k1 = k then some (Node.node k1 s sc v nc p) else parentOfType p k

/-- The `SPECIAL_SYMBOLS` loop of `findSymbolInDocument` (symbols.ts:795-808):
the first table entry whose kind has an enclosing node and whose bindings
contain the requested name yields a fresh Variable symbol. -/
def findSpecial (table : List (NodeKind × (String → Option TI)))
    (inScopeOf : Option Node) (name : String) : Option SymbolInfo :=
  match table with
  | [] => none
  | (definerKind, specials) :: rest =>
    match specials name, parentOfType inScopeOf definerKind with
    | some _, some parent =>
      some { kind := SymKind.variableS, node := some parent,
             identifierNode :=
               if parent.kind = NodeKind.macroDecl then parent.nameChild
               else none,
             getType := fun _ => specials name }
    | _, _ => findSpecial rest inScopeOf name

/-- The `type === "Variable"`-only early returns of `findSymbolInDocument`
(symbols.ts:795-875): special symbols, then globals, extra globals, document
globals, then the test- and filter-position identifier cases. -/
def variableLookups (env : LookupEnv) (document : Doc) (name : String)
    (program : Option Node) (inScopeOf : Option Node) : Option SymbolInfo :=
  match findSpecial env.specialSymbols inScopeOf name with
  | some r => some r
  | none =>
    if (env.globals name).isSome ∧ program.isSome then
      some { kind := SymKind.variableS, node := program,
             identifierNode := none, getType := fun _ => env.globals name }
    else if ((match env.extraGlobals with
              | some eg => (eg name).isSome
              | none => false) && program.isSome) then
      some { kind := SymKind.variableS, node := program,
             identifierNode := none,
             getType := fun _ =>
               match env.extraGlobals with
               | some eg => eg name
               | none => none }
    else if ((match env.documentGlobals document.uri with
              | some dg => (dg name).isSome
              | none => false) && program.isSome) then
      some { kind := SymKind.variableS, node := program,
             identifierNode := none,
             getType := fun _ =>
               match env.documentGlobals document.uri with
               | some dg => dg name
               | none => none }
    else
      match inScopeOf with
      | some n =>
        if n.kind = NodeKind.identifier ∧ env.testPos n = true then
          some { kind := SymKind.variableS, node := some n,
                 identifierNode := none,
                 getType := fun _ =>
                   match n.value with
                   | some v => env.testsFn v
                   | none => none }
        else if n.kind = NodeKind.identifier ∧ env.filterPos n = true then
          some { kind := SymKind.variableS, node := some n,
                 identifierNode := none,
                 getType := fun _ =>
                   match n.value with
                   | some v => env.filtersFn v
                   | none => none }
        else none
      | none => none

/-- The per-entry test of the reverse scan of `findSymbolInDocument`
(symbols.ts:880-892): right kind, node present, and in scope. -/
def symbolMatches (type : SymKind) (inScopeOf program : Option Node)
    (s : SymbolInfo) : Bool :=
  decide (s.kind = type) &&
    (match s.node with
     | some n => isInScope n inScopeOf program
     | none => false)

/-- `findSymbolInDocument` (symbols.ts:787-893): Variable-only early lookups,
then a scan of the per-name definition list from the last entry backwards
returning the first in-scope match of the requested kind; `none` models the
source's `undefined` result. -/
def findSymbolInDocument (env : LookupEnv) (document : Doc)
    (symbols : Option SymTable) (name : String) (type : SymKind)
    (program : Option Node) (inScopeOf : Option Node) : Option SymbolInfo :=
  match (if type = SymKind.variableS then
           variableLookups env document name program inScopeOf
         else none) with
  | some r => some r
  | none =>
    ((symbols.bind (fun t => assocGet t name)).getD []).reverse.find?
      (symbolMatches type inScopeOf program)

/-- An empty lookup environment: no special symbols, no globals, no
filter/test tables. -/
def emptyEnv : LookupEnv :=
  { specialSymbols := []
    globals := fun _ => none
    extraGlobals := none
    documentGlobals := fun _ => none
    testsFn := fun _ => none
    filtersFn := fun _ => none
    testPos := fun _ => false
    filterPos := fun _ => false }

/-- A small concrete document. -/
def docA : Doc := { uri := "file:///a.html", text := "" }

/-- A Program node (document root). -/
def progNode : Node :=
  Node.node NodeKind.program none none none none none

/-- A Macro defined at offset 10 at the top level of `progNode`. -/
def macroAt10 : Node :=
  Node.node NodeKind.macroDecl (some 10) none none none (some progNode)

/-- An Identifier use site at offset 0, lexically before `macroAt10`, in the
same (Program) scope. -/
def useAt0 : Node :=
  Node.node NodeKind.identifier (some 0) none (some "m") none (some progNode)

/-- A use site carrying no `getStart` offset (as a token node does), in the
same (Program) scope. -/
def useNoStart : Node :=
  Node.node NodeKind.identifier none none (some "m") none (some progNode)

/-- The Macro-kind symbol that `collectSymbols` records for a macro. -/
def macroSymA : SymbolInfo :=
  { kind := SymKind.macroS, node := some macroAt10,
    identifierNode := none, getType := fun _ => none }

/-- Claim C1, counterexample: with the macro defined at offset 10 and the use
site at offset 0 in the same Program scope — so the macro's enclosing scope
equals (hence is an ancestor of) the use site's scope — `isInScope` is
nevertheless `false`, because symbols.ts:760-769 rejects any definition whose
start offset lies strictly after the use site's start offset, and the
Macro-kind lookup in `findSymbolInDocument` consequently misses. -/
theorem c1_counterexample :
    getScope (some macroAt10) true = some progNode ∧
    getScope (some useAt0) true = some progNode ∧
    useAt0.start = some 0 ∧ macroAt10.start = some 10 ∧
    isInScope macroAt10 (some useAt0) (some progNode) = false ∧
    findSymbolInDocument emptyEnv docA (some [("m", [macroSymA])]) "m"
      SymKind.macroS (some progNode) (some useAt0) = none :=
  ⟨rfl, rfl, rfl, rfl, rfl, rfl⟩

/-- Claim C1 (amended): `isInScope(macroNode, useNode, program)` is true
whenever the macro's enclosing scope is an ancestor of (or equal to) the use
site's scope — ancestry along the implementation's scope chain, which stops at
a Block not marked `scoped` — provided additionally that the use site does not
start strictly before the macro when both carry source offsets; hoisting
(a use lexically before the definition) therefore holds exactly for use sites
that carry no start offset, as token-based lookups do. -/
theorem c1_amended_isInScope (macroNode useNode : Node)
    (program : Option Node) (s : Node)
    (horder : ∀ us ms : Nat, useNode.start = some us →
      macroNode.start = some ms → ms ≤ us)
    (hs : getScope (some macroNode) true = some s)
    (hmem : s ∈ (match getScope (some useNode) true with
                 | some c => scopeChain c
                 | none =>
                   match program with
                   | some c => scopeChain c
                   | none => [])) :
    isInScope macroNode (some useNode) program = true := by
  have hcond : (match (some useNode).bind Node.start, macroNode.start with
      | some ss, some ns => decide (ss < ns)
      | _, _ => false) = false := by
    cases hu : useNode.start with
    | none => simp [Option.bind, hu]
    | some us =>
      cases hm : macroNode.start with
      | none => simp [Option.bind, hu, hm]
      | some ms =>
        have := horder us ms hu hm
        simp [Option.bind, hu, hm]
        omega
  rw [isInScope.eq_def, hcond]
  simp only [Bool.false_eq_true, if_false]
  rw [hs]
  revert hmem
  cases hgu : getScope (some useNode) true with
  | some c =>
    intro hmem
    exact scopeLoop_of_mem_chain c s hmem
  | none =>
    cases program with
    | some c =>
      intro hmem
      exact scopeLoop_of_mem_chain c s hmem
    | none =>
      intro hmem
      simp at hmem

/-- Witness for the amended C1: for the use site without a start offset the
macro defined later in the same scope is in scope (hoisting). -/
theorem c1_amended_witness :
    useNoStart.start = none ∧
    isInScope macroAt10 (some useNoStart) (some progNode) = true :=
  ⟨rfl,
    c1_amended_isInScope macroAt10 useNoStart (some progNode) progNode
      (fun us ms hu _ => by simp [useNoStart, Node.start] at hu)
      rfl
      (by
        show progNode ∈ scopeChain progNode
        rw [scopeChain]
        exact List.mem_cons_self _ _)⟩

/-- Claim C9: when the requested name is one of the special bindings of a
node kind listed in SPECIAL_SYMBOLS and the use site has an enclosing node of
that kind, `findSymbolInDocument` (kind Variable) returns that special
binding, in preference to any user-defined symbol of the same name — the
symbol table, the globals and the remaining lookups are arbitrary. -/
theorem c9_special_symbols_preferred (env : LookupEnv) (document : Doc)
    (symbols : Option SymTable) (name : String) (program : Option Node)
    (inScopeOf : Option Node) (r : SymbolInfo)
    (h : findSpecial env.specialSymbols inScopeOf name = some r) :
    findSymbolInDocument env document symbols name SymKind.variableS
      program inScopeOf = some r := by
  have hv : variableLookups env document name program inScopeOf = some r := by
    unfold variableLookups
    rw [h]
  unfold findSymbolInDocument
  simp [hv]

/-- A `loop`-style special binding table for For nodes. -/
def forSpecials : String → Option TI :=
  fun n => if n = "loop" then some (TI.info "dict" none none none) else none

/-- A lookup environment whose SPECIAL_SYMBOLS carry `loop` for For nodes. -/
def specialEnv : LookupEnv :=
  { emptyEnv with specialSymbols := [(NodeKind.forDecl, forSpecials)] }

/-- A For statement at the top level of `progNode`. -/
def forNodeW : Node :=
  Node.node NodeKind.forDecl (some 5) none none none (some progNode)

/-- A use of the name `loop` inside the body of `forNodeW`. -/
def useInFor : Node :=
  Node.node NodeKind.identifier (some 8) none (some "loop") none (some forNodeW)

/-- A user-defined document symbol that also goes by the name `loop`. -/
def userLoopSym : SymbolInfo :=
  { kind := SymKind.variableS, node := some progNode,
    identifierNode := none, getType := fun _ => some (TI.strv "user") }

/-- The special binding `findSpecial` constructs for `loop` inside `forNodeW`. -/
def specialLoopSym : SymbolInfo :=
  { kind := SymKind.variableS, node := some forNodeW,
    identifierNode := none, getType := fun _ => forSpecials "loop" }

/-- Witness for C9: inside a For loop the special `loop` binding shadows the
user-defined `loop` symbol recorded in the document's symbol table. -/
theorem c9_witness :
    findSymbolInDocument specialEnv docA (some [("loop", [userLoopSym])])
      "loop" SymKind.variableS (some progNode) (some useInFor) =
      some specialLoopSym :=
  c9_special_symbols_preferred specialEnv docA (some [("loop", [userLoopSym])])
    "loop" (some progNode) (some useInFor) specialLoopSym (by
      simp [specialEnv, emptyEnv, forSpecials, findSpecial, parentOfType,
        useInFor, forNodeW, specialLoopSym, Node.kind, Node.nameChild])

theorem find?_eq_none_of_all {α : Type} (p : α → Bool) (l : List α)
    (h : ∀ x ∈ l, p x = false) : l.find? p = none :=
  List.find?_eq_none.mpr (fun x hx => by simp [h x hx])

theorem find?_append_of_none {α : Type} (p : α → Bool) (l₁ l₂ : List α)
    (h : l₁.find? p = none) : (l₁ ++ l₂).find? p = l₂.find? p := by
  induction l₁ with
  | nil => rfl
  | cons a t ih =>
    rw [List.find?_eq_none] at h
    have hpa : p a = false := by simp [h a (List.mem_cons_self a t)]
    rw [List.cons_append, List.find?_cons_of_neg _ (by simp [hpa])]
    exact ih (List.find?_eq_none.mpr
      (fun x hx => h x (List.mem_cons_of_mem a hx)))

/-- Scanning a list from its last element backwards returns the
latest-positioned element satisfying the predicate. -/
theorem reverse_find?_latest {α : Type} (p : α → Bool) (l : List α) (i : Nat)
    (s : α) (hi : l.get? i = some s) (hp : p s = true)
    (hafter : ∀ j, i < j → ∀ s', l.get? j = some s' → p s' = false) :
    l.reverse.find? p = some s := by
  have hilen : i < l.length := by
    by_contra hge
    rw [List.get?_eq_none.mpr (by omega)] at hi
    exact Option.noConfusion hi
  have hdecomp : l.take i ++ s :: l.drop (i + 1) = l := by
    have h1 : l.drop i = s :: l.drop (i + 1) := by
      rw [List.drop_eq_getElem_cons hilen]
      congr 1
      rw [List.get?_eq_getElem?, List.getElem?_eq_getElem hilen] at hi
      exact Option.some.inj hi
    rw [← h1, List.take_append_drop]
  have hrev : l.reverse = (l.drop (i + 1)).reverse ++ s :: (l.take i).reverse := by
    conv_lhs => rw [← hdecomp]
    simp
  rw [hrev]
  have hfail : (l.drop (i + 1)).reverse.find? p = none := by
    apply find?_eq_none_of_all
    intro x hx
    rw [List.mem_reverse] at hx
    obtain ⟨k, hk⟩ := List.get?_of_mem hx
    have hxl : l.get? (i + 1 + k) = some x := by
      rw [← List.get?_drop]
      exact hk
    exact hafter (i + 1 + k) (by omega) x hxl
  rw [find?_append_of_none p _ _ hfail, List.find?_cons_of_pos _ hp]

/-- Claim C3: when several definitions of the requested name and kind are in
scope at the use site, `findSymbolInDocument` returns the one occurring
latest in document (insertion) order: the per-name list is scanned from the
last entry backwards and the first in-scope match is returned. -/
theorem c3_latest_definition_wins (env : LookupEnv) (document : Doc)
    (symbols : Option SymTable) (name : String) (type : SymKind)
    (program : Option Node) (inScopeOf : Option Node) (i : Nat)
    (s : SymbolInfo)
    (hpre : type = SymKind.variableS →
      variableLookups env document name program inScopeOf = none)
    (hi : ((symbols.bind (fun t => assocGet t name)).getD []).get? i = some s)
    (hp : symbolMatches type inScopeOf program s = true)
    (hafter : ∀ j, i < j → ∀ s',
      ((symbols.bind (fun t => assocGet t name)).getD []).get? j = some s' →
      symbolMatches type inScopeOf program s' = false) :
    findSymbolInDocument env document symbols name type program inScopeOf =
      some s := by
  have hv : (if type = SymKind.variableS then
      variableLookups env document name program inScopeOf else none) = none := by
    by_cases ht : type = SymKind.variableS
    · simp [ht, hpre ht]
    · simp [ht]
  unfold findSymbolInDocument
  rw [hv]
  exact reverse_find?_latest _ _ i s hi hp hafter

/-- A second macro definition, at offset 20, also at the top level. -/
def macroAt20 : Node :=
  Node.node NodeKind.macroDecl (some 20) none none none (some progNode)

/-- The Macro-kind symbol recorded for `macroAt20`. -/
def macroSymB : SymbolInfo :=
  { kind := SymKind.macroS, node := some macroAt20,
    identifierNode := none, getType := fun _ => none }

/-- Witness for C3: with two in-scope macro definitions of the same name in
insertion order, the later one (`macroSymB`) is returned. -/
theorem c3_witness :
    findSymbolInDocument emptyEnv docA (some [("m", [macroSymA, macroSymB])])
      "m" SymKind.macroS (some progNode) none = some macroSymB := by
  have hloopA : scopeLoop progNode (some progNode) = true :=
    scopeLoop_of_mem_chain progNode progNode
      (by rw [scopeChain]; exact List.mem_cons_self _ _)
  apply c3_latest_definition_wins emptyEnv docA
    (some [("m", [macroSymA, macroSymB])]) "m" SymKind.macroS (some progNode)
    none 1 macroSymB
  · intro ht
    exact absurd ht (by simp)
  · rfl
  · have hmB : isInScope macroAt20 none (some progNode) =
        scopeLoop progNode (some progNode) := rfl
    show symbolMatches SymKind.macroS none (some progNode) macroSymB = true
    simp [symbolMatches, macroSymB, hmB, hloopA]
  · intro j hj s' hs'
    rcases j with _ | _ | n
    · omega
    · omega
    · simp [List.get?] at hs'

/-- Expressions, viewed through what the embedded functions inspect: an
identifier, a string literal (the only import source the resolver accepts), or
any other expression kind. -/
inductive Expr where
  | identE (value : String)
  | stringLitE (value : String)
  | otherE
deriving DecidableEq

/-- The four import-like statement kinds. -/
inductive ImportKind where
  | importK
  | includeK
  | fromImportK
  | extendsK
deriving DecidableEq

/-- One entry of an `ast.FromImport`'s `imports` list: the imported symbol's
`source` name and the optional alias `name`. -/
structure FromImportEntry where
  source : String
  name : Option String

/-- An import-like statement (ast.Include | ast.Import | ast.FromImport |
ast.Extends) viewed through what `getImportedSymbols` and `findImport` read:
its AST node, its kind tag, an `ast.Import`'s namespace `name.value`, an
`ast.FromImport`'s entries, and the `source` expression. -/
structure ImportStmt where
  node : Node
  ikind : ImportKind
  nameValue : Option String
  fromImports : List FromImportEntry
  sourceExpr : Expr

/-- The per-document caches of state.ts read by the lookup functions:
`documentASTs` (keeping only the `program` member the lookups use),
`documentSymbols`, `documentImports` (import statement paired with the
resolved URI, `none` when unresolved), and `documents`. -/
structure ServerState where
  documentASTs : String → Option Node
  documentSymbols : String → Option SymTable
  documentImports : String → Option (List (ImportStmt × Option String))
  documents : String → Option Doc

/-- The property record of the namespace TypeInfo built by the `ast.Import`
branch of `getImportedSymbols` (symbols.ts:944-961): every key of the imported
document's symbol table that resolves to a Variable symbol is mapped to that
symbol's type. -/
def namespaceProps (env : LookupEnv) (importedDocument : Doc)
    (importedSymbols : Option SymTable) (importedAST : Node) :
    List (String × Option TI) :=
  ((importedSymbols.getD []).map Prod.fst).foldl
    (fun acc symbolName =>
      match findSymbolInDocument env importedDocument importedSymbols
          symbolName SymKind.variableS (some importedAST) none with
      | some sv => assocSet acc symbolName (sv.getType importedDocument)
      | none => acc) []

/-- The import-processing loop of `getImportedSymbols` (symbols.ts:912-993):
each import edge is skipped when filtered out by `importTypes`, out of scope,
unresolved, or missing its document or AST; otherwise an `ast.Import` with
kind Variable contributes one namespace symbol, an `ast.FromImport`
contributes its listed names, and any other edge contributes every name of
the imported document's symbol table. -/
def processImports (env : LookupEnv) (st : ServerState) (type : SymKind)
    (inScopeOf : Option Node) (importTypes : Option (List ImportKind))
    (prog : Node) :
    List (ImportStmt × Option String) → List (String × (SymbolInfo × Doc)) →
    List (String × (SymbolInfo × Doc))
  | [], acc => acc
  | (istmt, res) :: rest, acc =>
    if (match importTypes with
        | some l => decide (istmt.ikind ∉ l)
        | none => false) then
      processImports env st type inScopeOf importTypes prog rest acc
    else if isInScope istmt.node inScopeOf (some prog) = false then
      processImports env st type inScopeOf importTypes prog rest acc
    else
      match res with
      | none => processImports env st type inScopeOf importTypes prog rest acc
      | some importedUri =>
        match st.documents importedUri with
        | none => processImports env st type inScopeOf importTypes prog rest acc
        | some importedDocument =>
          let importedSymbols := st.documentSymbols importedUri
          match st.documentASTs importedUri with
          | none =>
            processImports env st type inScopeOf importTypes prog rest acc
          | some importedAST =>
            let acc' :=
              if istmt.ikind = ImportKind.importK ∧ type = SymKind.variableS then
                match istmt.nameValue with
                | some nm =>
                  assocSet acc nm
                    ({ kind := SymKind.variableS, node := some importedAST,
                       identifierNode := none,
                       getType := fun _ =>
                         some (TI.info "namespace" none
                           (some (namespaceProps env importedDocument
                             importedSymbols importedAST)) none) },
                     importedDocument)
                | none => acc
              else if istmt.ikind = ImportKind.fromImportK then
                istmt.fromImports.foldl
                  (fun a fi =>
                    match findSymbolInDocument env importedDocument
                        importedSymbols fi.source type (some importedAST)
                        none with
                    | some sv =>
                      assocSet a (fi.name.getD fi.source) (sv, importedDocument)
                    | none => a) acc
              else
                ((importedSymbols.getD []).map Prod.fst).foldl
                  (fun a symbolName =>
                    match findSymbolInDocument env importedDocument
                        importedSymbols symbolName type (some importedAST)
                        none with
                    | some sv => assocSet a symbolName (sv, importedDocument)
                    | none => a) acc
            processImports env st type inScopeOf importTypes prog rest acc'

/-- `getImportedSymbols` (symbols.ts:895-996): empty when the current
document has no program, otherwise the map built by `processImports`. -/
def getImportedSymbols (env : LookupEnv) (st : ServerState)
    (inScopeOf : Option Node) (type : SymKind) (document : Doc)
    (importTypes : Option (List ImportKind)) :
    List (String × (SymbolInfo × Doc)) :=
  match st.documentASTs document.uri with
  | none => []
  | some prog =>
    processImports env st type inScopeOf importTypes prog
      ((st.documentImports document.uri).getD []) []

/-- `findSymbol` (symbols.ts:998-1033): current-document lookup (when
`checkCurrent`), then the imported-symbols map.  The source returns the tuple
`[symbol, document]` on success and the empty tuple `[]` on a miss; `none`
models `[]`. -/
def findSymbol (env : LookupEnv) (st : ServerState) (document : Doc)
    (inScopeOf : Option Node) (name : String) (type : SymKind)
    (checkCurrent : Bool) (importTypes : Option (List ImportKind)) :
    Option (SymbolInfo × Doc) :=
  match (if checkCurrent then
           findSymbolInDocument env document (st.documentSymbols document.uri)
             name type (st.documentASTs document.uri) inScopeOf
         else none) with
  | some s => some (s, document)
  | none =>
    assocGet (getImportedSymbols env st inScopeOf type document importTypes)
      name

/-- Claim C4: a failed resolution is not an error — both lookup functions are
total and, when no matching symbol is visible (the Variable-only early
lookups miss, no table entry of the requested name matches, and the imported
map has no entry), `findSymbolInDocument` returns `undefined` (`none`) and
`findSymbol` returns the empty tuple (`none`), never an exception. -/
theorem c4_lookup_miss_returns_empty (env : LookupEnv) (st : ServerState)
    (document : Doc) (inScopeOf : Option Node) (name : String) (type : SymKind)
    (checkCurrent : Bool) (importTypes : Option (List ImportKind))
    (hpre : type = SymKind.variableS →
      variableLookups env document name (st.documentASTs document.uri)
        inScopeOf = none)
    (htab : ∀ s ∈ (((st.documentSymbols document.uri).bind
        (fun t => assocGet t name)).getD []),
      symbolMatches type inScopeOf (st.documentASTs document.uri) s = false)
    (himp : assocGet
        (getImportedSymbols env st inScopeOf type document importTypes)
        name = none) :
    findSymbolInDocument env document (st.documentSymbols document.uri) name
      type (st.documentASTs document.uri) inScopeOf = none ∧
    findSymbol env st document inScopeOf name type checkCurrent importTypes =
      none := by
  have hv : (if type = SymKind.variableS then
      variableLookups env document name (st.documentASTs document.uri)
        inScopeOf else none) = none := by
    by_cases ht : type = SymKind.variableS
    · simp [ht, hpre ht]
    · simp [ht]
  have hfsid : findSymbolInDocument env document
      (st.documentSymbols document.uri) name type
      (st.documentASTs document.uri) inScopeOf = none := by
    unfold findSymbolInDocument
    rw [hv]
    apply find?_eq_none_of_all
    intro x hx
    exact htab x (List.mem_reverse.mp hx)
  refine ⟨hfsid, ?_⟩
  unfold findSymbol
  cases checkCurrent with
  | false => simp [himp]
  | true => simp [hfsid, himp]

/-- An empty server state: no cached documents, ASTs, symbols or imports. -/
def emptyState : ServerState :=
  { documentASTs := fun _ => none
    documentSymbols := fun _ => none
    documentImports := fun _ => none
    documents := fun _ => none }

/-- Witness for C4: in the empty state every lookup for `x` misses and both
functions return the empty result. -/
theorem c4_witness :
    findSymbolInDocument emptyEnv docA (emptyState.documentSymbols docA.uri)
      "x" SymKind.variableS (emptyState.documentASTs docA.uri) none = none ∧
    findSymbol emptyEnv emptyState docA none "x" SymKind.variableS true none =
      none :=
  c4_lookup_miss_returns_empty emptyEnv emptyState docA none "x"
    SymKind.variableS true none
    (fun _ => by rfl)
    (fun s hs => absurd hs (List.not_mem_nil s))
    (by rfl)

/-- The candidate-base loop of `findImport` (symbols.ts:733-739), instrumented
with the list of URIs actually passed to `readFile`: each base URI is joined
with the source literal and read until one read resolves. -/
def tryReadBases (joinPath : String → String → String)
    (readFile : String → Option String) (src : String) :
    List String → Option (String × String) × List String
  | [] => (none, [])
  | base :: rest =>
    match readFile (joinPath base src) with
    | some contents => (some (joinPath base src, contents), [joinPath base src])
    | none =>
      let r := tryReadBases joinPath readFile src rest
      (r.1, joinPath base src :: r.2)

/-- `findImport` (symbols.ts:724-741), instrumented with the list of URIs it
reads: a source expression that is not a string literal returns the empty
result (`none` models the empty array `[]`) immediately; otherwise the base
URIs are tried in order.  `getURIs` (symbols.ts:717-722) builds its URI list
with an external URI library, so its result is passed in as `importURIs`, and
`joinPath` likewise stands for `Utils.joinPath(..).toString()`. -/
def findImportWithReads (i : ImportStmt) (importURIs : List String)
    (joinPath : String → String → String)
    (readFile : String → Option String) :
    Option (String × String) × List String :=
  match i.sourceExpr with
  | .stringLitE v => tryReadBases joinPath readFile v importURIs
  | _ => (none, [])

/-- Claim C7: an import-like statement whose source expression is not a string
literal resolves to the empty result without a single `readFile` call, and
an import edge recorded with no resolved URI is skipped by the
import-processing loop, contributing no symbols (and no error) for any requested kind. -/
theorem c7_nonliteral_import_unresolved :
    (∀ (i : ImportStmt) (importURIs : List String)
        (joinPath : String → String → String)
        (readFile : String → Option String),
      (∀ v, i.sourceExpr ≠ Expr.stringLitE v) →
      findImportWithReads i importURIs joinPath readFile = (none, [])) ∧
    (∀ (env : LookupEnv) (st : ServerState) (type : SymKind)
        (inScopeOf : Option Node) (importTypes : Option (List ImportKind))
        (prog : Node) (istmt : ImportStmt)
        (rest : List (ImportStmt × Option String))
        (acc : List (String × (SymbolInfo × Doc))),
      processImports env st type inScopeOf importTypes prog
        ((istmt, none) :: rest) acc =
      processImports env st type inScopeOf importTypes prog rest acc) := by
  constructor
  · intro i importURIs joinPath readFile h
    unfold findImportWithReads
    match hsrc : i.sourceExpr with
    | .stringLitE v => exact absurd hsrc (h v)
    | .identE v => rfl
    | .otherE => rfl
  · intro env st type inScopeOf importTypes prog istmt rest acc
    simp only [processImports]
    split
    · rfl
    · split <;> rfl

/-- An include statement whose source is a computed (non-literal) expression. -/
def computedInclude : ImportStmt :=
  { node := Node.node NodeKind.otherKind (some 3) none none none (some progNode)
    ikind := ImportKind.includeK
    nameValue := none
    fromImports := []
    sourceExpr := Expr.otherE }

/-- Witness for C7: the computed include resolves to nothing and performs no
read even against a `readFile` that would succeed on every URI, and an
unresolved edge contributes no symbols to an otherwise non-trivial
accumulator. -/
theorem c7_witness :
    findImportWithReads computedInclude ["file:///base"]
      (fun a b => a ++ "/" ++ b) (fun _ => some "contents") = (none, []) ∧
    processImports emptyEnv emptyState SymKind.macroS none none progNode
      [(computedInclude, none)] [] = [] :=
  ⟨(c7_nonliteral_import_unresolved.1 computedInclude ["file:///base"]
      (fun a b => a ++ "/" ++ b) (fun _ => some "contents")
      (fun v h => by simp [computedInclude] at h)),
   (c7_nonliteral_import_unresolved.2 emptyEnv emptyState SymKind.macroS none
      none progNode computedInclude [] [])⟩

/-- The re-analysis decision loop of `analyzeDocument` (server.ts:246-260):
from the fetched `[uri, contents]` pairs, a recursive `analyzeDocument` call
is scheduled exactly for the pairs whose fetched contents differ from
`documents.get(uri)?.getText()`.  `uri` and `contents` are optional because an
unresolved `findImport` contributes an `[undefined, undefined]` pair. -/
def documentsToReanalyze
    (documentsToAnalyze : List (Option String × Option String))
    (documents : String → Option Doc) : List (Option String × Option String) :=
  documentsToAnalyze.filter
    (fun p => decide (p.2 ≠ (p.1.bind documents).map Doc.text))

/-- Claim C8: during an analysis pass a fetched import target is scheduled for
re-analysis exactly when its fetched contents differ from the text of the
currently cached document for that URI; in particular, when the contents are
equal (content equality, not merely path equality) no recursive
`analyzeDocument` call is made for that URI in that pass. -/
theorem c8_reanalyze_iff_content_differs
    (dta : List (Option String × Option String))
    (documents : String → Option Doc) (p : Option String × Option String) :
    p ∈ documentsToReanalyze dta documents ↔
      p ∈ dta ∧ p.2 ≠ (p.1.bind documents).map Doc.text := by
  simp [documentsToReanalyze]

/-- `addSymbol` of `collectSymbols` (symbols.ts:399-403): append the new
definition to the end of the per-name list (insertion order = source
order). -/
def addSymbol (result : SymTable) (name : String) (value : SymbolInfo) :
    SymTable :=
  assocSet result name ((assocGet result name).getD [] ++ [value])

/-- A For statement's loop variable: either a single Identifier (with its
node) or a TupleLiteral node whose Identifier items are listed positionally
(`none` marks a non-identifier item, which the source skips). -/
inductive LoopVar where
  | identLV (value : String) (node : Node)
  | tupleLV (node : Node) (items : List (Option (String × Node)))

/-- The access `(resolveType(..)?.properties ?? [])[index]`: look up a string
key in the resolved type's property record. -/
def propAt (ti : Option TI) (key : String) : Option TI :=
  match ti with
  | some (TI.info _ _ (some props) _) => (assocGet props key).getD none
  | _ => none

/-- The `ast.For` branch of `collectSymbols` (symbols.ts:550-580),
parameterized by the type-inference entry points `getType` and `resolveType`
of types.ts, which the stored closures call. -/
def collectForSymbols (getTypeFn : Expr → Doc → Option TI)
    (resolveTypeFn : Option TI → Option TI) (loopvar : LoopVar)
    (iterable : Expr) (result : SymTable) : SymTable :=
  match loopvar with
  | .identLV v nd =>
    addSymbol result v
      { kind := SymKind.variableS, node := some nd, identifierNode := some nd,
        getType := fun document =>
          resolveTypeFn
            ((resolveTypeFn (getTypeFn iterable document)).bind
              TI.elementTypeOf) }
  | .tupleLV nd items =>
    (items.enum).foldl
      (fun acc p =>
        match p.2 with
        | some (v, itemNode) =>
          addSymbol acc v
            { kind := SymKind.variableS, node := some nd,
              identifierNode := some itemNode,
              getType := fun document =>
                resolveTypeFn
                  (propAt
                    (resolveTypeFn
                      ((resolveTypeFn (getTypeFn iterable document)).bind
                        TI.elementTypeOf))
                    (toString p.1)) }
        | none => acc) result

/-- The spec's formula for C2: the loop variable's type is the element type
of the iterable's resolved type,
`resolveType(resolveType(getType(e, document))?.elementType)`. -/
def specForLoopVarType (getTypeFn : Expr → Doc → Option TI)
    (resolveTypeFn : Option TI → Option TI) (e : Expr) (document : Doc) :
    Option TI :=
  resolveTypeFn ((resolveTypeFn (getTypeFn e document)).bind TI.elementTypeOf)

/-- Claim C2: for every for-loop whose loop variable is a single identifier,
the `getType` closure stored for the loop-variable symbol computes exactly
the element type of the iterable's resolved type, for every document and
every instantiation of the type-inference entry points. -/
theorem c2_for_loop_var_element_type (getTypeFn : Expr → Doc → Option TI)
    (resolveTypeFn : Option TI → Option TI) (v : String) (nd : Node)
    (iterable : Expr) (result : SymTable) :
    ∃ sym : SymbolInfo,
      collectForSymbols getTypeFn resolveTypeFn (LoopVar.identLV v nd)
        iterable result = addSymbol result v sym ∧
      sym.kind = SymKind.variableS ∧
      ∀ document : Doc,
        sym.getType document =
          specForLoopVarType getTypeFn resolveTypeFn iterable document :=
  ⟨_, rfl, rfl, fun _ => rfl⟩

/-- The embedding of JavaScript's `toLowerCase()`: lower-case every
character (kernel-computable, unlike `String.toLower`, which recurses on
byte positions). -/
def strToLower (s : String) : String :=
  String.mk (s.data.map Char.toLower)

/-- `MAX_TYPEDEF_EXPANSION_DEPTH` (docFormatting.ts:56). -/
def MAX_TYPEDEF_EXPANSION_DEPTH : Nat := 5

/-- `PRIMITIVE_TYPES` (docFormatting.ts:59-76). -/
def PRIMITIVE_TYPES : List String :=
  ["string", "str", "number", "int", "integer", "float", "bool", "boolean",
   "any", "object", "dict", "list", "array", "tuple", "null", "undefined"]

/-- One property entry of a `TypedefInfo` (docFormatting.ts:79). -/
structure TypedefPropInfo where
  ptype : String
  description : Option String

/-- `TypedefInfo` (docFormatting.ts:78-81); the property map is an ordered
association list because a JavaScript Map preserves insertion order. -/
structure TypedefInfo where
  properties : Option (List (String × TypedefPropInfo))
  documentation : Option String

/-- Four-space indentation repeated `n` times (`"    ".repeat(indent)`). -/
def indentOf (n : Nat) : String :=
  String.join (List.replicate n "    ")

/-- The property line built by `formatPropertyLine` (docFormatting.ts:95-100)
before any typedef expansion: indentation, bullet, bold name, optional
type in backticks, optional em-dash description. -/
def basePropertyLine (name : String) (ptype : Option String)
    (description : Option String) (indent : Nat) : String :=
  indentOf indent ++ "- " ++ "**" ++ name ++ "**" ++
    (match ptype with
     | some t => ": `" ++ t ++ "`"
     | none => "") ++
    (match description with
     | some d => " — *" ++ d ++ "*"
     | none => "")

/-- `formatPropertyLine` (docFormatting.ts:86-138): emits the property line
and, when the type names a known non-primitive typedef that is not already on
the current expansion path and the depth limit is not reached, recursively
appends the typedef's properties as nested lines with the type added to the
expansion set. -/
def formatPropertyLine (name : String) (ptype : Option String)
    (description : Option String) (indent : Nat)
    (typedefs : Option (List (String × TypedefInfo))) (depth : Nat)
    (expandedTypes : List String) : String :=
  let line := basePropertyLine name ptype description indent
  match ptype, typedefs with
  | some t, some tds =>
    if hdepth : depth < MAX_TYPEDEF_EXPANSION_DEPTH then
      if PRIMITIVE_TYPES.contains (strToLower t) || expandedTypes.contains t then
        line
      else
        match assocGet tds t with
        | some td =>
          match td.properties with
          | some props =>
            if props.length = 0 then line
            else
              let nestedLines := props.map
                (fun pr =>
                  formatPropertyLine pr.1 (some pr.2.ptype) pr.2.description
                    (indent + 1) (some tds) (depth + 1) (t :: expandedTypes))
              if nestedLines.length = 0 then line
              else line ++ "\n" ++ String.intercalate "\n" nestedLines
          | none => line
        | none => line
    else line
  | _, _ => line
termination_by MAX_TYPEDEF_EXPANSION_DEPTH - depth
decreasing_by omega

/-- Claim C5: expansion of a named type reference always terminates — the
recursion is well-founded on `MAX_TYPEDEF_EXPANSION_DEPTH - depth`, which is
what lets `formatPropertyLine` exist as a total function — and moreover: a
call at the depth limit performs no expansion, a call whose type is already
in the expansion set performs no expansion (so a self-referential typedef is
never re-entered), and re-running the same expansion on the same input yields
the identical output. -/
theorem c5_expansion_bounded_and_deterministic :
    (∀ (name : String) (ptype : Option String) (description : Option String)
        (indent : Nat) (typedefs : Option (List (String × TypedefInfo)))
        (depth : Nat) (expandedTypes : List String),
      MAX_TYPEDEF_EXPANSION_DEPTH ≤ depth →
      formatPropertyLine name ptype description indent typedefs depth
        expandedTypes = basePropertyLine name ptype description indent) ∧
    (∀ (name t : String) (description : Option String) (indent : Nat)
        (typedefs : Option (List (String × TypedefInfo))) (depth : Nat)
        (expandedTypes : List String),
      t ∈ expandedTypes →
      formatPropertyLine name (some t) description indent typedefs depth
        expandedTypes = basePropertyLine name (some t) description indent) ∧
    (∀ (name : String) (ptype : Option String) (description : Option String)
        (indent : Nat) (typedefs : Option (List (String × TypedefInfo)))
        (depth : Nat) (expandedTypes : List String),
      formatPropertyLine name ptype description indent typedefs depth
        expandedTypes =
        formatPropertyLine name ptype description indent typedefs depth
          expandedTypes) := by
  refine ⟨?_, ?_, ?_⟩
  · intro name ptype description indent typedefs depth expandedTypes h
    rw [formatPropertyLine.eq_def]
    cases ptype with
    | none => rfl
    | some t =>
      cases typedefs with
      | none => rfl
      | some tds =>
        dsimp only
        rw [dif_neg (Nat.not_lt.mpr h)]
  · intro name t description indent typedefs depth expandedTypes h
    rw [formatPropertyLine.eq_def]
    cases typedefs with
    | none => rfl
    | some tds =>
      dsimp only
      by_cases hdepth : depth < MAX_TYPEDEF_EXPANSION_DEPTH
      · rw [dif_pos hdepth]
        have hc : expandedTypes.contains t = true := by
          simpa using h
        rw [hc]
        simp
      · rw [dif_neg hdepth]
  · intro name ptype description indent typedefs depth expandedTypes
    rfl

/-- A self-referential typedef: `Self` has a property `child` whose declared
type is again `Self`. -/
def selfTypedefs : List (String × TypedefInfo) :=
  [("Self",
    { properties := some [("child", { ptype := "Self", description := none })]
      documentation := none })]

/-- Witness for C5: against the self-referential typedef table, a call at the
depth limit and a call whose type is already expanded both return the
unexpanded line, and the expansion is deterministic. -/
theorem c5_witness :
    formatPropertyLine "root" (some "Self") none 0 (some selfTypedefs) 5 [] =
      basePropertyLine "root" (some "Self") none 0 ∧
    formatPropertyLine "child" (some "Self") none 1 (some selfTypedefs) 1
      ["Self"] = basePropertyLine "child" (some "Self") none 1 ∧
    formatPropertyLine "root" (some "Self") none 0 (some selfTypedefs) 0 [] =
      formatPropertyLine "root" (some "Self") none 0 (some selfTypedefs) 0 [] :=
  ⟨c5_expansion_bounded_and_deterministic.1 "root" (some "Self") none 0
      (some selfTypedefs) 5 [] (by decide),
   c5_expansion_bounded_and_deterministic.2.1 "child" "Self" none 1
      (some selfTypedefs) 1 ["Self"] (by simp),
   c5_expansion_bounded_and_deterministic.2.2 "root" (some "Self") none 0
      (some selfTypedefs) 0 []⟩

/-- Tokens, as far as the spec-modelled parser fragment reads them: tag
delimiters, identifiers, literal text and end of input. -/
inductive PToken where
  | tagOpen
  | tagClose
  | identT (value : String)
  | textT (value : String)
  | eofT
deriving DecidableEq

/-- Statements produced by the spec-modelled parser fragment. -/
inductive PStmt where
  | textS (value : String)
  | forS (body : List PStmt)
  | tagS (name : String)

/-- The block-closing keywords of the control structures. -/
def closingKeywords : List String :=
  ["endfor", "endif", "endblock", "endmacro", "endcall", "endwith",
   "endfilter", "endset"]

/-- Modelled from the spec: the parser of packages/language/src/parser.ts is
not among the provided sources (only its re-export in
packages/language/src/index.ts and its tests are).  Per spec §4.2, §7 and §8
the parser descends over the token stream collecting statements; in tolerant
mode errors are recovered by skipping to the next boundary, but a stray
block-closing keyword with no matching opener is a hard error that throws
even in tolerant mode, because there is no sensible node to synthesize.
`Except.error` models the thrown error, so no recovered AST exists on that
path.  `acc` holds the statements of the innermost open block (in reverse)
and `stack` the enclosing blocks' statements. -/
def closeOpenBlocks : List PStmt → List (List PStmt) → List PStmt
  | acc, [] => acc.reverse
  | acc, top :: rest => closeOpenBlocks (PStmt.forS acc.reverse :: top) rest

def parseRun (tolerant : Bool) :
    List PToken → List PStmt → List (List PStmt) →
    Except String (List PStmt)
  | [], acc, stack =>
    match stack with
    | [] => Except.ok acc.reverse
    | _ :: _ =>
      if tolerant then Except.ok (closeOpenBlocks acc stack)
      else Except.error "Expected block-closing tag"
  | PToken.eofT :: _, acc, stack =>
    match stack with
    | [] => Except.ok acc.reverse
    | _ :: _ =>
      if tolerant then Except.ok (closeOpenBlocks acc stack)
      else Except.error "Expected block-closing tag"
  | PToken.textT v :: rest, acc, stack =>
    parseRun tolerant rest (PStmt.textS v :: acc) stack
  | PToken.tagOpen :: PToken.identT kw :: PToken.tagClose :: rest, acc, stack =>
    if kw = "for" then
      parseRun tolerant rest [] (acc :: stack)
    else if kw ∈ closingKeywords then
      match stack with
      | top :: stackRest =>
        parseRun tolerant rest (PStmt.forS acc.reverse :: top) stackRest
      | [] =>
        Except.error ("Unexpected block-closing tag " ++ kw)
    else
      parseRun tolerant rest (PStmt.tagS kw :: acc) stack
  | _ :: rest, acc, stack =>
    if tolerant then
      parseRun tolerant rest acc stack
    else
      Except.error "Unexpected token"

/-- Modelled from the spec: `parse(tokens, tolerant)` of the language package,
restricted to the statement structure the claim exercises. -/
def parseTokens (tokens : List PToken) (tolerant : Bool) :
    Except String (List PStmt) :=
  parseRun tolerant tokens [] []

/-- The token stream of the input `{% endfor %}`. -/
def endforTokens : List PToken :=
  [PToken.tagOpen, PToken.identT "endfor", PToken.tagClose, PToken.eofT]

/-- A well-formed loop, `{% for %}x{% endfor %}`, for contrast. -/
def forLoopTokens : List PToken :=
  [PToken.tagOpen, PToken.identT "for", PToken.tagClose,
   PToken.textT "x",
   PToken.tagOpen, PToken.identT "endfor", PToken.tagClose, PToken.eofT]

/-- Claim C6: parsing `{% endfor %}` — a block-closing keyword with no
matching opening statement — throws in both tolerant and strict modes, and no
recovered AST is returned for this input; a matched `for`/`endfor` pair, by
contrast, parses without error in both modes. -/
theorem c6_stray_closer_throws :
    (∀ tolerant : Bool,
      parseTokens endforTokens tolerant =
        Except.error "Unexpected block-closing tag endfor") ∧
    (∀ tolerant : Bool,
      parseTokens forLoopTokens tolerant =
        Except.ok [PStmt.forS [PStmt.textS "x"]]) := by
  constructor
  · intro tolerant
    cases tolerant <;> rfl
  · intro tolerant
    cases tolerant <;> rfl

/-- The `occurrence` member of a fields.json field definition
(moduleFields.ts:27-31).  `max` distinguishes a missing member (`none`), an
explicit `null` (`some none`) and a number (`some (some m)`). -/
structure Occurrence where
  min : Option Int
  max : Option (Option Int)
  default : Option Int

/-- One entry of a choice field's `choices` array (moduleFields.ts:33): an
object `{value, label}` or a two-element tuple. -/
inductive Choice where
  | obj (value : String) (label : String)
  | pair (first : String) (second : String)

/-- A fields.json `FieldDefinition` (moduleFields.ts:13-36), restricted to the
members `fieldToTypeInfo` reads.  `ftype` is `none` when `field.type` is
missing or not a string (the guard of moduleFields.ts:362); `fieldsLegacy` is
the legacy `fields` member. -/
inductive FieldDefinition where
  | mk (name : String) (id : Option String) (ftype : Option String)
      (helpText : Option String) (inlineHelpText : Option String)
      (occurrence : Option Occurrence)
      (children : Option (List FieldDefinition))
      (fieldsLegacy : Option (List FieldDefinition))
      (choices : Option (List Choice))

/-- The field's `name`. -/
def FieldDefinition.name : FieldDefinition → String
  | .mk n _ _ _ _ _ _ _ _ => n

/-- The field's optional `id`. -/
def FieldDefinition.id : FieldDefinition → Option String
  | .mk _ i _ _ _ _ _ _ _ => i

/-- The field's `type`, when it is a string. -/
def FieldDefinition.ftype : FieldDefinition → Option String
  | .mk _ _ t _ _ _ _ _ _ => t

/-- The field's `help_text`. -/
def FieldDefinition.helpText : FieldDefinition → Option String
  | .mk _ _ _ h _ _ _ _ _ => h

/-- The field's `inline_help_text`. -/
def FieldDefinition.inlineHelpText : FieldDefinition → Option String
  | .mk _ _ _ _ ih _ _ _ _ => ih

/-- The field's `occurrence`. -/
def FieldDefinition.occurrence : FieldDefinition → Option Occurrence
  | .mk _ _ _ _ _ occ _ _ _ => occ

/-- The field's `children`. -/
def FieldDefinition.children : FieldDefinition → Option (List FieldDefinition)
  | .mk _ _ _ _ _ _ ch _ _ => ch

/-- The field's legacy `fields` member. -/
def FieldDefinition.fieldsLegacy :
    FieldDefinition → Option (List FieldDefinition)
  | .mk _ _ _ _ _ _ _ fl _ => fl

/-- The field's `choices`. -/
def FieldDefinition.choices : FieldDefinition → Option (List Choice)
  | .mk _ _ _ _ _ _ _ _ cs => cs

/-- The field's `type` as the string JavaScript would interpolate (a missing
type never reaches the formatting code because of the guard). -/
def FieldDefinition.ftypeStr (f : FieldDefinition) : String :=
  match f.ftype with
  | some t => t
  | none => "undefined"

/-- `SIMPLE_TYPE_MAP` (moduleFields.ts:41-70). -/
def SIMPLE_TYPE_MAP : List (String × String) :=
  [("text", "str"), ("textarea", "str"), ("richtext", "str"),
   ("simplemenu", "str"),
   ("number", "int"),
   ("boolean", "bool"),
   ("choice", "str"), ("dropdown", "str"),
   ("page", "int"), ("blog", "int"), ("blogpost", "int"), ("file", "str"),
   ("date", "int"), ("datetime", "int"), ("hubdbtable", "int"),
   ("meeting", "str"), ("menu", "int"), ("blog_author", "int"),
   ("textalignment", "str")]

/-- `COMPLEX_TYPE_MAP` (moduleFields.ts:75-279). -/
def COMPLEX_TYPE_MAP : List (String × TI) :=
  [("color", TI.info "dict" none (some
      [("color", some (TI.ref "str" none)),
       ("opacity", some (TI.ref "int" none))]) none),
   ("font", TI.info "dict" none (some
      [("color", some (TI.ref "str" none)),
       ("size", some (TI.ref "int" none)),
       ("size_unit", some (TI.ref "str" none)),
       ("font", some (TI.ref "str" none)),
       ("font_set", some (TI.ref "str" none)),
       ("variant", some (TI.ref "str" none)),
       ("fallback", some (TI.ref "str" none)),
       ("styles", some (TI.info "dict" none none none))]) none),
   ("image", TI.info "dict" none (some
      [("src", some (TI.ref "str" none)),
       ("alt", some (TI.ref "str" none)),
       ("width", some (TI.ref "int" none)),
       ("height", some (TI.ref "int" none)),
       ("loading", some (TI.ref "str" none)),
       ("size_type", some (TI.ref "str" none)),
       ("max_width", some (TI.ref "int" none)),
       ("max_height", some (TI.ref "int" none))]) none),
   ("backgroundimage", TI.info "dict" none (some
      [("src", some (TI.ref "str" none)),
       ("background_position", some (TI.ref "str" none)),
       ("background_size", some (TI.ref "str" none))]) none),
   ("icon", TI.info "dict" none (some
      [("name", some (TI.ref "str" none)),
       ("type", some (TI.ref "str" none)),
       ("unicode", some (TI.ref "str" none))]) none),
   ("link", TI.info "dict" none (some
      [("url", some (TI.info "dict" none none none)),
       ("open_in_new_tab", some (TI.ref "bool" none)),
       ("no_follow", some (TI.ref "bool" none)),
       ("sponsored", some (TI.ref "bool" none))]) none),
   ("url", TI.info "dict" none (some
      [("href", some (TI.ref "str" none)),
       ("type", some (TI.ref "str" none))]) none),
   ("cta", TI.info "dict" none (some
      [("guid", some (TI.ref "str" none))]) none),
   ("form", TI.info "dict" none (some
      [("form_id", some (TI.ref "str" none)),
       ("response_type", some (TI.ref "str" none)),
       ("message", some (TI.ref "str" none)),
       ("redirect_url", some (TI.ref "str" none))]) none),
   ("spacing", TI.info "dict" none (some
      [("top", some (TI.info "dict" none none none)),
       ("bottom", some (TI.info "dict" none none none)),
       ("left", some (TI.info "dict" none none none)),
       ("right", some (TI.info "dict" none none none)),
       ("padding", some (TI.info "dict" none none none)),
       ("margin", some (TI.info "dict" none none none))]) none),
   ("border", TI.info "dict" none (some
      [("top", some (TI.info "dict" none none none)),
       ("bottom", some (TI.info "dict" none none none)),
       ("left", some (TI.info "dict" none none none)),
       ("right", some (TI.info "dict" none none none))]) none),
   ("alignment", TI.info "dict" none (some
      [("horizontal_align", some (TI.ref "str" none)),
       ("vertical_align", some (TI.ref "str" none))]) none),
   ("gradient", TI.info "dict" none (some
      [("side_or_corner", some (TI.info "dict" none none none)),
       ("colors", some (TI.info "list" none none none))]) none),
   ("videoplayer", TI.info "dict" none (some
      [("player_id", some (TI.ref "int" none)),
       ("height", some (TI.ref "int" none)),
       ("width", some (TI.ref "int" none)),
       ("conversion_asset", some (TI.info "dict" none none none))]) none),
   ("embed", TI.info "dict" none (some
      [("source_type", some (TI.ref "str" none))]) none),
   ("payment", TI.info "dict" none (some
      [("id", some (TI.ref "str" none))]) none),
   ("logo", TI.info "dict" none (some
      [("src", some (TI.ref "str" none)),
       ("alt", some (TI.ref "str" none)),
       ("width", some (TI.ref "int" none)),
       ("height", some (TI.ref "int" none)),
       ("override_inherited_src", some (TI.ref "bool" none)),
       ("suppress_company_name", some (TI.ref "bool" none))]) none),
   ("followmelinks", TI.info "list" none none none),
   ("tag", TI.info "dict" none (some
      [("id", some (TI.ref "int" none)),
       ("name", some (TI.ref "str" none)),
       ("slug", some (TI.ref "str" none))]) none),
   ("crmobject", TI.info "dict" none (some
      [("id", some (TI.ref "str" none)),
       ("properties", some (TI.info "dict" none none none))]) none)]

/-- The property-type string used by the documentation builder
(moduleFields.ts:342-349): a TypeReference's `type`, else a TypeInfo's
`name`, else `"Any"`. -/
def propTypeName : Option TI → String
  | some (TI.ref t _) => t
  | some (TI.info n _ _ _) => n
  | _ => "Any"

/-- `buildFieldDocumentation` (moduleFields.ts:304-355): header with the
field's id (or name) and type, help texts, then a property list taken from
the children (for groups) or from the complex type's properties. -/
def buildFieldDocumentation (field : FieldDefinition) (complexType : Option TI)
    (children : Option (List FieldDefinition)) : String :=
  let fieldId := (field.id).getD field.name
  let lines := ["**" ++ fieldId ++ "** `" ++ field.ftypeStr ++ "`"]
  let lines :=
    match field.helpText with
    | some h => if h = "" then lines else lines ++ ["", h]
    | none => lines
  let lines :=
    match field.inlineHelpText with
    | some h => if h = "" then lines else lines ++ ["", "*" ++ h ++ "*"]
    | none => lines
  let lines :=
    if (match children with
        | some cs => decide (cs.length > 0)
        | none => false) then
      lines ++ ["", "**Properties:**"] ++
        ((children.getD []).filterMap (fun c =>
          if c.name = "" then none
          else some ("- `" ++ c.name ++ "` `" ++ c.ftypeStr ++ "`")))
    else
      match complexType with
      | some (TI.info _ _ (some props) _) =>
        lines ++ ["", "**Properties:**"] ++
          props.map (fun pr => "- `" ++ pr.1 ++ "` `" ++ propTypeName pr.2 ++ "`")
      | _ => lines
  String.intercalate "\n" lines

/-- The group children, `field.children ?? field.fields ?? []`
(moduleFields.ts:377). -/
def groupChildren (field : FieldDefinition) : List FieldDefinition :=
  match field.children with
  | some cs => cs
  | none =>
    match field.fieldsLegacy with
    | some fs => fs
    | none => []

theorem groupChildren_sizeOf (field : FieldDefinition) :
    sizeOf (groupChildren field) < sizeOf field := by
  match field with
  | .mk n i t h ih occ ch fl cs =>
    cases ch with
    | some l =>
      simp [groupChildren, FieldDefinition.children]
      omega
    | none =>
      cases fl with
      | some l =>
        simp [groupChildren, FieldDefinition.children,
          FieldDefinition.fieldsLegacy]
        omega
      | none =>
        simp [groupChildren, FieldDefinition.children,
          FieldDefinition.fieldsLegacy]
        omega

/-- The `isRepeater` test of `fieldToTypeInfo` (moduleFields.ts:390-394): an
occurrence is present and its `max` is null, undefined, or greater than 1. -/
def isRepeater (field : FieldDefinition) : Bool :=
  match field.occurrence with
  | none => false
  | some occ =>
    match occ.max with
    | none => true
    | some none => true
    | some (some m) => decide (1 < m)

/-- The per-item line of a repeater group's element documentation
(moduleFields.ts:398-409). -/
def elementDocumentation (field : FieldDefinition)
    (children : List FieldDefinition) : String :=
  String.intercalate "\n"
    (["**" ++ field.name ++ "** item"] ++
      (if children.length > 0 then
        ["", "**Properties:**"] ++
          children.filterMap (fun c =>
            if c.name = "" then none
            else some ("- `" ++ c.name ++ "` `" ++ c.ftypeStr ++ "`"))
      else []))

mutual

/-- `fieldToTypeInfo` (moduleFields.ts:360-475): the guard for malformed
fields, then the group branch (repeater list vs single dict), the choice
branch, the simple-type mapping, the complex-type mapping, and the `Any`
fallback. -/
def fieldToTypeInfo (field : FieldDefinition) : TI :=
  match hft : field.ftype with
  | none => TI.info "Any" (some "Unknown field") none none
  | some ftypeRaw =>
    let fieldTypeLower := strToLower ftypeRaw
    let simpleType := assocGet SIMPLE_TYPE_MAP fieldTypeLower
    let complexType := assocGet COMPLEX_TYPE_MAP fieldTypeLower
    let documentation := buildFieldDocumentation field complexType none
    if fieldTypeLower = "group" then
      let childProperties := fieldChildProps [] (groupChildren field)
      let groupDocumentation :=
        buildFieldDocumentation field none (some (groupChildren field))
      if isRepeater field then
        TI.info "list" (some groupDocumentation) none
          (some (TI.info "dict"
            (some (elementDocumentation field (groupChildren field)))
            (some childProperties) none))
      else
        TI.info "dict" (some groupDocumentation) (some childProperties) none
    else if (fieldTypeLower = "choice" ∨ fieldTypeLower = "dropdown") ∧
        (field.choices).isSome then
      let choiceLines := (field.choices.getD []).map
        (fun c =>
          match c with
          | Choice.pair a b => "- `" ++ a ++ "` " ++ b
          | Choice.obj v lab => "- `" ++ v ++ "` " ++ lab)
      TI.ref "str"
        (some (documentation ++ "\n\n**Choices:**\n" ++
          String.intercalate "\n" choiceLines))
    else
      match simpleType with
      | some st => TI.ref st (some documentation)
      | none =>
        match complexType with
        | some (TI.info cname _ cprops celem) =>
          TI.info cname (some documentation) cprops celem
        | some other => other
        | none => TI.info "Any" (some documentation) none none
termination_by sizeOf field
decreasing_by exact groupChildren_sizeOf field

/-- The child-property record of a group (moduleFields.ts:378-384): each
named child contributes its own `fieldToTypeInfo`, later names
overwriting earlier ones as JavaScript object assignment does. -/
def fieldChildProps :
    List (String × Option TI) → List FieldDefinition →
    List (String × Option TI)
  | acc, [] => acc
  | acc, c :: rest =>
    fieldChildProps
      (if c.name = "" then acc
       else assocSet acc c.name (some (fieldToTypeInfo c)))
      rest
termination_by acc l => sizeOf l
decreasing_by
  all_goals simp_wf
  all_goals omega

end

/-- `fieldsToModuleTypeInfo` (moduleFields.ts:480-497): the module TypeInfo
whose properties are the named fields' types. -/
def fieldsToModuleTypeInfo (fields : List FieldDefinition) : TI :=
  TI.info "module"
    (some "Module fields defined in fields.json. Access field values using dot notation (e.g., module.field_name).")
    (some (fields.foldl
      (fun acc f =>
        if f.name = "" then acc
        else assocSet acc f.name (some (fieldToTypeInfo f))) []))
    none

/-- The claim's occurrence condition for C10, stated in the claim's words: the
field has an occurrence whose max is null, undefined, or greater than 1. -/
def isRepeaterSpec (field : FieldDefinition) : Prop :=
  ∃ occ, field.occurrence = some occ ∧
    (occ.max = some none ∨ occ.max = none ∨
      ∃ m : Int, occ.max = some (some m) ∧ 1 < m)

/-- Claim C10: a `group` field definition converts to a list-shaped TypeInfo
(name "list", element type a dict of the group's child field types) exactly
when it has an occurrence whose max is null, undefined, or greater than 1
(the repeater test), and otherwise to a dict-shaped TypeInfo holding the same
child field types as properties. -/
theorem c10_group_field_shape (field : FieldDefinition) (t : String)
    (hft : field.ftype = some t) (hgroup : strToLower t = "group") :
    (isRepeater field = true ↔ isRepeaterSpec field) ∧
    (isRepeater field = true →
      fieldToTypeInfo field =
        TI.info "list"
          (some (buildFieldDocumentation field none
            (some (groupChildren field))))
          none
          (some (TI.info "dict"
            (some (elementDocumentation field (groupChildren field)))
            (some (fieldChildProps [] (groupChildren field))) none))) ∧
    (isRepeater field = false →
      fieldToTypeInfo field =
        TI.info "dict"
          (some (buildFieldDocumentation field none
            (some (groupChildren field))))
          (some (fieldChildProps [] (groupChildren field))) none) := by
  have hshape : fieldToTypeInfo field =
      (if isRepeater field then
        TI.info "list"
          (some (buildFieldDocumentation field none
            (some (groupChildren field))))
          none
          (some (TI.info "dict"
            (some (elementDocumentation field (groupChildren field)))
            (some (fieldChildProps [] (groupChildren field))) none))
      else
        TI.info "dict"
          (some (buildFieldDocumentation field none
            (some (groupChildren field))))
          (some (fieldChildProps [] (groupChildren field))) none) := by
    rw [fieldToTypeInfo.eq_def, hft]
    dsimp only
    rw [hgroup]
    simp
  refine ⟨?_, ?_, ?_⟩
  · unfold isRepeater isRepeaterSpec
    cases hocc : field.occurrence with
    | none => simp [hocc]
    | some occ =>
      cases hmax : occ.max with
      | none => simp [hocc, hmax]
      | some maxv =>
        cases maxv with
        | none => simp [hocc, hmax]
        | some m => simp [hocc, hmax]
  · intro h
    rw [hshape, if_pos h]
  · intro h
    rw [hshape, if_neg (by simp [h])]

/-- A plain text child field. -/
def titleField : FieldDefinition :=
  FieldDefinition.mk "title" none (some "text") none none none none none none

/-- A repeater group (occurrence present with `max: null`) holding one child
field. -/
def itemsField : FieldDefinition :=
  FieldDefinition.mk "items" none (some "group") none none
    (some { min := none, max := some none, default := none })
    (some [titleField]) none none

/-- A single (non-repeating) group: `occurrence.max === 1`. -/
def singleGroupField : FieldDefinition :=
  FieldDefinition.mk "settings" none (some "group") none none
    (some { min := none, max := some (some 1), default := none })
    (some [titleField]) none none

/-- Witness for C10: the repeater group types as a list of dicts of its child
field types, the single group as a dict of the same child field types. -/
theorem c10_witness :
    fieldToTypeInfo itemsField =
      TI.info "list"
        (some (buildFieldDocumentation itemsField none
          (some (groupChildren itemsField))))
        none
        (some (TI.info "dict"
          (some (elementDocumentation itemsField (groupChildren itemsField)))
          (some (fieldChildProps [] (groupChildren itemsField))) none)) ∧
    fieldToTypeInfo singleGroupField =
      TI.info "dict"
        (some (buildFieldDocumentation singleGroupField none
          (some (groupChildren singleGroupField))))
        (some (fieldChildProps [] (groupChildren singleGroupField))) none :=
  ⟨(c10_group_field_shape itemsField "group" rfl rfl).2.1 rfl,
   (c10_group_field_shape singleGroupField "group" rfl rfl).2.2 rfl⟩

end HublLs
